import Mathlib

/-!
Shallow embedding of `src/generate_test_data.py`, a script that generates a
tree of fake package fixtures: a root `pkgs` directory, numbered package
directories each holding a `manifest.json` and randomly sized binary payload
files, and an index file `packages.txt` listing the package directories.

The file system is modelled as a finite set of directory paths plus a partial
map from file paths (lists of components, joined by `/` when rendered) to file
contents.  Randomness (`random.randint` and `os.urandom`) is modelled by an
abstract source passed in as a parameter; the counter threading reflects the
call order of the Python code.  Disk-level I/O failures (permission errors,
disk full) are outside the model: the only modelled error is Python's
`FileExistsError` raised by `os.makedirs` without `exist_ok=True`.
-/

/-- Decimal digit character, as Python renders integers: `0 ↦ '0'`, ..., `9 ↦ '9'`. -/
def digitChar10 (n : Nat) : Char := Char.ofNat (48 + n)

/-- Decimal digit list of a natural number (most significant first), with
explicit structural fuel; `fuel > n` is always respected by callers.
Mirrors Python's `str(i)` / `repr` of a non-negative integer. -/
def natDigitsAux : Nat → Nat → List Char
  | 0, _ => []
  | fuel + 1, n =>
    if n < 10 then [digitChar10 n]
    else natDigitsAux fuel (n / 10) ++ [digitChar10 (n % 10)]

/-- Decimal rendering of a natural number, as Python's `str(i)` for `i ≥ 0`. -/
def natStr (n : Nat) : String := String.mk (natDigitsAux (n + 1) n)

/-- Python `f"{i:03d}"` for `i ≥ 0`: the decimal rendering, left-padded with
`'0'` to a minimum width of 3. -/
def pad3 (n : Nat) : String :=
  let s := natStr n
  if s.length < 3 then String.mk (List.replicate (3 - s.length) '0') ++ s else s

/-- Package name `f"pkg{i:03d}"` from line 10 of the source. -/
def pkgName (i : Nat) : String := "pkg" ++ pad3 i

/-- Payload file name `f"f{j}.bin"` from line 19 of the source. -/
def payloadName (j : Nat) : String := "f" ++ natStr j ++ ".bin"

/-- Manifest text written on line 16 of the source:
`{"name":"<pkg_name>","version":"1.0.0"}` followed by a newline. -/
def manifestText (name : String) : String :=
  "\x7b\"name\":\"" ++ name ++ "\",\"version\":\"1.0.0\"\x7d\n"

/-- Digit-fold value of a character list: reading it as a decimal numeral. -/
def valFrom (a : Nat) (l : List Char) : Nat :=
  l.foldl (fun acc c => 10 * acc + (c.toNat - 48)) a

/-- Decimal value of a string (the inverse of rendering, for digit strings). -/
def strVal (s : String) : Nat := valFrom 0 s.data

theorem digitChar10_toNat {n : Nat} (h : n < 10) : (digitChar10 n).toNat = 48 + n := by
  interval_cases n <;> decide

theorem valFrom_append (a : Nat) (l₁ l₂ : List Char) :
    valFrom a (l₁ ++ l₂) = valFrom (valFrom a l₁) l₂ := by
  simp [valFrom, List.foldl_append]

theorem valFrom_replicate_zero (a k : Nat) :
    valFrom a (List.replicate k '0') = a * 10 ^ k := by
  induction k generalizing a with
  | zero => simp [valFrom]
  | succ k ih =>
    rw [List.replicate_succ]
    show valFrom a ('0' :: List.replicate k '0') = _
    have : valFrom a ('0' :: List.replicate k '0') = valFrom (10 * a) (List.replicate k '0') := by
      simp [valFrom]
    rw [this, ih]
    ring

theorem valFrom_natDigitsAux {fuel n : Nat} (h : n < fuel) (a : Nat) :
    valFrom a (natDigitsAux fuel n) = a * 10 ^ (natDigitsAux fuel n).length + n := by
  induction fuel generalizing n a with
  | zero => omega
  | succ fuel ih =>
    by_cases h10 : n < 10
    · simp only [natDigitsAux, if_pos h10]
      simp [valFrom, digitChar10_toNat h10]
      ring
    · simp only [natDigitsAux, if_neg h10]
      have hdiv : n / 10 < fuel := by
        have : n / 10 < n := Nat.div_lt_self (by omega) (by norm_num)
        omega
      rw [valFrom_append, ih hdiv]
      have hm : n % 10 < 10 := Nat.mod_lt _ (by norm_num)
      simp [valFrom, digitChar10_toNat hm, List.length_append]
      rw [pow_succ]
      have := Nat.div_add_mod n 10
      ring_nf
      omega

theorem valFrom_natDigits (n : Nat) : valFrom 0 (natDigitsAux (n + 1) n) = n := by
  have := @valFrom_natDigitsAux (n + 1) n (by omega) 0
  simpa using this

theorem strVal_natStr (n : Nat) : strVal (natStr n) = n := by
  simpa [strVal, natStr] using valFrom_natDigits n

theorem natStr_injective : Function.Injective natStr := by
  intro a b h
  have := strVal_natStr a
  rw [h, strVal_natStr] at this
  omega

theorem strVal_pad3 (n : Nat) : strVal (pad3 n) = n := by
  unfold pad3
  by_cases h : (natStr n).length < 3
  · simp only [if_pos h]
    show valFrom 0 (String.mk (List.replicate (3 - (natStr n).length) '0') ++ natStr n).data = n
    rw [String.data_append]
    show valFrom 0 (List.replicate (3 - (natStr n).length) '0' ++ (natStr n).data) = n
    rw [valFrom_append, valFrom_replicate_zero]
    simpa [strVal, natStr] using strVal_natStr n
  · simp only [if_neg h]
    exact strVal_natStr n

theorem pad3_injective : Function.Injective pad3 := by
  intro a b h
  have := strVal_pad3 a
  rw [h, strVal_pad3] at this
  omega

theorem pkgName_injective : Function.Injective pkgName := by
  intro a b h
  apply pad3_injective
  have hd : (pkgName a).data = (pkgName b).data := congrArg String.data h
  simp only [pkgName, String.data_append] at hd
  have := List.append_cancel_left hd
  exact String.ext this

theorem payloadName_injective : Function.Injective payloadName := by
  intro a b h
  apply natStr_injective
  have hd : (payloadName a).data = (payloadName b).data := congrArg String.data h
  simp only [payloadName, String.data_append] at hd
  have h1 : "f".data ++ ((natStr a).data ++ ".bin".data)
      = "f".data ++ ((natStr b).data ++ ".bin".data) := by
    simpa [List.append_assoc] using hd
  have h2 := List.append_cancel_left h1
  have h3 := List.append_cancel_right h2
  exact String.ext h3

theorem natDigitsAux_length_pos {fuel n : Nat} (h : n < fuel) :
    0 < (natDigitsAux fuel n).length := by
  cases fuel with
  | zero => omega
  | succ fuel =>
    by_cases h10 : n < 10
    · simp [natDigitsAux, if_pos h10]
    · simp [natDigitsAux, if_neg h10]

theorem natDigitsAux_length_le {fuel n k : Nat} (h : n < fuel) (hk : 1 ≤ k)
    (hn : n < 10 ^ k) : (natDigitsAux fuel n).length ≤ k := by
  induction fuel generalizing n k with
  | zero => omega
  | succ fuel ih =>
    by_cases h10 : n < 10
    · simp [natDigitsAux, if_pos h10, hk]
    · simp only [natDigitsAux, if_neg h10, List.length_append, List.length_singleton]
      have hk2 : 2 ≤ k := by
        by_contra hlt
        have hk1 : k = 1 := by omega
        rw [hk1] at hn
        simp at hn
        omega
      have hdivfuel : n / 10 < fuel := by
        have : n / 10 < n := Nat.div_lt_self (by omega) (by norm_num)
        omega
      have hdivpow : n / 10 < 10 ^ (k - 1) := by
        rw [Nat.div_lt_iff_lt_mul (by norm_num : (0:Nat) < 10)]
        have : 10 ^ (k - 1) * 10 = 10 ^ k := by
          rw [← pow_succ]
          congr 1
          omega
        omega
      have := ih hdivfuel (by omega) hdivpow
      omega

theorem natDigitsAux_length_ge {fuel n k : Nat} (h : n < fuel) (hn : 10 ^ k ≤ n) :
    k + 1 ≤ (natDigitsAux fuel n).length := by
  induction fuel generalizing n k with
  | zero => omega
  | succ fuel ih =>
    by_cases h10 : n < 10
    · have hk0 : k = 0 := by
        by_contra hk
        have h1 : (10:Nat) ^ 1 ≤ 10 ^ k := Nat.pow_le_pow_right (by norm_num) (by omega)
        simp at h1
        omega
      simp [natDigitsAux, if_pos h10, hk0]
    · simp only [natDigitsAux, if_neg h10, List.length_append, List.length_singleton]
      cases k with
      | zero =>
        have hdivfuel : n / 10 < fuel := by
          have : n / 10 < n := Nat.div_lt_self (by omega) (by norm_num)
          omega
        have := natDigitsAux_length_pos hdivfuel
        omega
      | succ k =>
        have hdivfuel : n / 10 < fuel := by
          have : n / 10 < n := Nat.div_lt_self (by omega) (by norm_num)
          omega
        have hdivpow : 10 ^ k ≤ n / 10 := by
          rw [Nat.le_div_iff_mul_le (by norm_num : (0:Nat) < 10)]
          calc 10 ^ k * 10 = 10 ^ (k + 1) := (pow_succ 10 k).symm
          _ ≤ n := hn
        have := ih hdivfuel hdivpow
        omega

theorem natStr_length_le_three {n : Nat} (h : n ≤ 999) : (natStr n).length ≤ 3 := by
  have : (natDigitsAux (n + 1) n).length ≤ 3 :=
    natDigitsAux_length_le (by omega) (by omega) (by norm_num; omega)
  simpa [natStr] using this

theorem natStr_length_ge_four {n : Nat} (h : 1000 ≤ n) : 4 ≤ (natStr n).length := by
  have : 3 + 1 ≤ (natDigitsAux (n + 1) n).length :=
    natDigitsAux_length_ge (by omega) (by norm_num; omega)
  simpa [natStr] using this

/-- For indices up to 999 the padded name part has width exactly 3. -/
theorem pad3_length_of_le {n : Nat} (h : n ≤ 999) : (pad3 n).length = 3 := by
  unfold pad3
  have h3 := natStr_length_le_three h
  by_cases hlt : (natStr n).length < 3
  · simp only [if_pos hlt, String.length_append]
    simp
    omega
  · simp only [if_neg hlt]
    omega

/-- Beyond 999 no padding happens: the name holds the full decimal rendering. -/
theorem pad3_of_ge {n : Nat} (h : 1000 ≤ n) : pad3 n = natStr n := by
  unfold pad3
  have h4 := natStr_length_ge_four h
  simp only [if_neg (by omega : ¬ (natStr n).length < 3)]

theorem digitChar10_ne_newline {d : Nat} (h : d < 10) : digitChar10 d ≠ '\n' := by
  interval_cases d <;> decide

theorem digitChar10_ne_slash {d : Nat} (h : d < 10) : digitChar10 d ≠ '/' := by
  interval_cases d <;> decide

theorem natDigitsAux_chars {fuel n : Nat} (h : n < fuel) :
    ∀ c ∈ natDigitsAux fuel n, ∃ d, d < 10 ∧ c = digitChar10 d := by
  induction fuel generalizing n with
  | zero => omega
  | succ fuel ih =>
    by_cases h10 : n < 10
    · simp only [natDigitsAux, if_pos h10, List.mem_singleton]
      rintro c rfl
      exact ⟨n, h10, rfl⟩
    · simp only [natDigitsAux, if_neg h10, List.mem_append, List.mem_singleton]
      rintro c (hc | rfl)
      · have hdivfuel : n / 10 < fuel := by
          have : n / 10 < n := Nat.div_lt_self (by omega) (by norm_num)
          omega
        exact ih hdivfuel c hc
      · exact ⟨n % 10, Nat.mod_lt _ (by norm_num), rfl⟩

theorem natStr_no_newline (n : Nat) : ∀ c ∈ (natStr n).data, c ≠ '\n' := by
  intro c hc
  obtain ⟨d, hd, rfl⟩ := natDigitsAux_chars (by omega : n < n + 1) c hc
  exact digitChar10_ne_newline hd

theorem pad3_no_newline (n : Nat) : ∀ c ∈ (pad3 n).data, c ≠ '\n' := by
  intro c hc
  unfold pad3 at hc
  by_cases hlt : (natStr n).length < 3
  · simp only [if_pos hlt, String.data_append] at hc
    rcases List.mem_append.mp hc with hz | hd
    · have : c = '0' := by
        have := List.eq_of_mem_replicate (by simpa using hz)
        exact this
      rw [this]; decide
    · exact natStr_no_newline n c hd
  · simp only [if_neg hlt] at hc
    exact natStr_no_newline n c hc

theorem pkgName_no_newline (n : Nat) : ∀ c ∈ (pkgName n).data, c ≠ '\n' := by
  intro c hc
  simp only [pkgName, String.data_append] at hc
  rcases List.mem_append.mp hc with hp | hd
  · intro hcn
    rw [hcn] at hp
    simp at hp
  · exact pad3_no_newline n c hd

/-- Content of a file: text (written in `"w"` mode, UTF-8) or raw bytes
(written in `"wb"` mode); bytes are modelled as a list of naturals. -/
inductive FileData where
  | text : String → FileData
  | bytes : List Nat → FileData
deriving DecidableEq

/-- A file-system path, as the list of its components; `os.path.join` of the
source corresponds to list concatenation, rendered with `/` separators. -/
abbrev FsPath := List String

/-- The file-system state: the set of existing directories and a partial map
from file paths to contents.  Disk-level I/O faults are outside the model. -/
structure FS where
  dirs : Finset FsPath
  content : FsPath → Option FileData

/-- The empty working directory the script is run in. -/
def FS.empty : FS := ⟨∅, fun _ => none⟩

/-- All nonempty component-prefixes of a path, shortest first: the chain of
directories `os.makedirs` creates. -/
def pathPrefixes (p : FsPath) : List FsPath :=
  (List.range p.length).map (fun k => p.take (k + 1))

/-- `os.path.exists`: true when the path is a directory or a file. -/
def FS.pathExists (fs : FS) (p : FsPath) : Bool :=
  decide (p ∈ fs.dirs) || (fs.content p).isSome

/-- `os.makedirs(p, exist_ok=True)`: create the directory and every missing
ancestor, never failing. -/
def FS.mkdirAll (fs : FS) (p : FsPath) : FS :=
  { fs with dirs := fs.dirs ∪ (pathPrefixes p).toFinset }

/-- `os.makedirs(p)` without `exist_ok`: raises `FileExistsError` when the
target already exists, otherwise creates the chain of directories. -/
def FS.makedirsStrict (fs : FS) (p : FsPath) : Except String FS :=
  if fs.pathExists p then Except.error "FileExistsError" else Except.ok (fs.mkdirAll p)

/-- `open(p, "w")` / `open(p, "wb")` followed by a single `write`: the file is
created or truncated, then holds exactly the written data. -/
def FS.writeFile (fs : FS) (p : FsPath) (d : FileData) : FS :=
  { fs with content := fun q => if q = p then some d else fs.content q }

/-- Text currently held by a path, empty when absent or binary. -/
def FS.textAt (fs : FS) (p : FsPath) : String :=
  match fs.content p with
  | some (.text t) => t
  | _ => ""

/-- A `write` on a text handle opened earlier in `"w"` mode: appends to what
this run has already written there. -/
def FS.appendToFile (fs : FS) (p : FsPath) (s : String) : FS :=
  { fs with content := fun q => if q = p then some (.text (fs.textAt p ++ s)) else fs.content q }

/-- The two randomness primitives the script calls, indexed by call number:
`ri k` is the `k`-th result of `random.randint(0, 4096)` and `ur k s` the
`k`-th result of `os.urandom(s)`.  One of each is consumed per payload file. -/
structure RandSource where
  ri : Nat → Nat
  ur : Nat → Nat → List Nat

/-- `random.randint(0, 4096)` draws uniformly from the inclusive range
`[0, 4096]`: every result is at most 4096. -/
def RandSource.IntBounded (r : RandSource) : Prop := ∀ k, r.ri k ≤ 4096

/-- `os.urandom(s)` returns exactly `s` bytes, each in `[0, 255]`. -/
def RandSource.BytesSized (r : RandSource) : Prop :=
  ∀ k s, (r.ur k s).length = s

/-- Python `range(1, n + 1)` over an integer argument: `[1, ..., n]` when
`n ≥ 1`, empty otherwise. -/
def pyRange1 (n : Int) : List Nat := (List.range n.toNat).map (· + 1)

/-- Path of the `i`-th package directory, `os.path.join("pkgs", pkg_name)`. -/
def pkgDir (i : Nat) : FsPath := ["pkgs", pkgName i]

/-- Path of the `files` subdirectory of package `i`. -/
def filesDir (i : Nat) : FsPath := ["pkgs", pkgName i, "files"]

/-- Path of package `i`'s manifest. -/
def manifestPath (i : Nat) : FsPath := ["pkgs", pkgName i, "manifest.json"]

/-- Path of payload file `j` of package `i`. -/
def payloadPath (i j : Nat) : FsPath := ["pkgs", pkgName i, "files", payloadName j]

/-- Path of the index file `packages.txt`, at the working directory root. -/
def indexPath : FsPath := ["packages.txt"]

/-- Rendering of a path as the string the script writes, components joined by
`/` (the POSIX `os.path.join` convention). -/
def pathStr (p : FsPath) : String := String.intercalate "/" p

/-- Body of the inner loop (lines 18-23 of the source): draw a size
`1024 + randint(0, 4096)`, draw that many random bytes, and write them to
`f<j>.bin`; the second component counts the randomness draws consumed. -/
def fileStep (r : RandSource) (i : Nat) (s : FS × Nat) (j : Nat) : FS × Nat :=
  ((s.1).writeFile (payloadPath i j) (.bytes (r.ur s.2 (1024 + r.ri s.2))), s.2 + 1)

/-- Body of the outer loop (lines 9-25 of the source): create the package's
`files` directory chain, write the manifest, write the payload files, and
append the package directory's path to the index file. -/
def pkgStep (r : RandSource) (numFiles : Int) (s : FS × Nat) (i : Nat) : FS × Nat :=
  let fs1 := (s.1).mkdirAll (filesDir i)
  let fs2 := fs1.writeFile (manifestPath i) (.text (manifestText (pkgName i)))
  let t := (pyRange1 numFiles).foldl (fileStep r i) (fs2, s.2)
  ((t.1).appendToFile indexPath (pathStr (pkgDir i) ++ "\n"), t.2)

/-- The whole script, `generate_test_data(num_packages, num_files_per_package)`:
guarded strict creation of `pkgs`, truncation of `packages.txt`, then the
package loop.  Arguments are integers, as in Python. -/
def generate_test_data (numPackages numFilesPerPackage : Int) (r : RandSource)
    (fs0 : FS) : Except String FS :=
  match (if fs0.pathExists ["pkgs"] then Except.ok fs0 else fs0.makedirsStrict ["pkgs"]) with
  | .error e => .error e
  | .ok fs1 =>
    Except.ok
      ((pyRange1 numPackages).foldl (pkgStep r numFilesPerPackage)
        (fs1.writeFile indexPath (.text ""), 0)).1

/-- The state produced by a run started in an empty working directory. -/
def runFS (numPackages numFilesPerPackage : Int) (r : RandSource) : FS :=
  ((pyRange1 numPackages).foldl (pkgStep r numFilesPerPackage)
    ((FS.empty.mkdirAll ["pkgs"]).writeFile indexPath (.text ""), 0)).1

/-- From an empty working directory the script completes without error and
produces `runFS`: `pkgs` does not exist yet, so the guarded strict
`os.makedirs("pkgs")` runs and succeeds. -/
theorem generate_empty_eq (numPackages numFilesPerPackage : Int) (r : RandSource) :
    generate_test_data numPackages numFilesPerPackage r FS.empty
      = Except.ok (runFS numPackages numFilesPerPackage r) := rfl

theorem FS.content_writeFile_self (fs : FS) (p : FsPath) (d : FileData) :
    (fs.writeFile p d).content p = some d := by
  simp [FS.writeFile]

theorem FS.content_writeFile_ne (fs : FS) {p q : FsPath} (d : FileData) (h : q ≠ p) :
    (fs.writeFile p d).content q = fs.content q := by
  simp [FS.writeFile, h]

theorem FS.dirs_writeFile (fs : FS) (p : FsPath) (d : FileData) :
    (fs.writeFile p d).dirs = fs.dirs := rfl

theorem FS.content_appendToFile_self (fs : FS) (p : FsPath) (s : String) :
    (fs.appendToFile p s).content p = some (.text (fs.textAt p ++ s)) := by
  simp [FS.appendToFile]

theorem FS.content_appendToFile_ne (fs : FS) {p q : FsPath} (s : String) (h : q ≠ p) :
    (fs.appendToFile p s).content q = fs.content q := by
  simp [FS.appendToFile, h]

theorem FS.dirs_appendToFile (fs : FS) (p : FsPath) (s : String) :
    (fs.appendToFile p s).dirs = fs.dirs := rfl

theorem FS.content_mkdirAll (fs : FS) (p q : FsPath) :
    (fs.mkdirAll p).content q = fs.content q := rfl

theorem FS.mem_dirs_mkdirAll (fs : FS) (p q : FsPath) :
    q ∈ (fs.mkdirAll p).dirs ↔ q ∈ fs.dirs ∨ q ∈ pathPrefixes p := by
  simp [FS.mkdirAll]

theorem pathPrefixes_filesDir (i : Nat) :
    pathPrefixes (filesDir i) = [["pkgs"], pkgDir i, filesDir i] := rfl

theorem pathPrefixes_root : pathPrefixes ["pkgs"] = [["pkgs"]] := rfl

theorem manifestPath_inj {a b : Nat} : manifestPath a = manifestPath b ↔ a = b := by
  constructor
  · intro h
    simp only [manifestPath, List.cons.injEq, and_true, true_and] at h
    exact pkgName_injective h
  · rintro rfl; rfl

theorem payloadPath_inj {a b c d : Nat} :
    payloadPath a b = payloadPath c d ↔ a = c ∧ b = d := by
  constructor
  · intro h
    simp only [payloadPath, List.cons.injEq, and_true, true_and] at h
    exact ⟨pkgName_injective h.1, payloadName_injective h.2⟩
  · rintro ⟨rfl, rfl⟩; rfl

theorem pkgDir_inj {a b : Nat} : pkgDir a = pkgDir b ↔ a = b := by
  constructor
  · intro h
    simp only [pkgDir, List.cons.injEq, and_true, true_and] at h
    exact pkgName_injective h
  · rintro rfl; rfl

theorem manifestPath_ne_payloadPath (a b c : Nat) : manifestPath a ≠ payloadPath b c := by
  simp [manifestPath, payloadPath]

theorem indexPath_ne_manifestPath (a : Nat) : indexPath ≠ manifestPath a := by
  simp [indexPath, manifestPath]

theorem indexPath_ne_payloadPath (a b : Nat) : indexPath ≠ payloadPath a b := by
  simp [indexPath, payloadPath]

theorem pkgDir_ne_filesDir (a b : Nat) : pkgDir a ≠ filesDir b := by
  simp [pkgDir, filesDir]

theorem filesDir_inj {a b : Nat} : filesDir a = filesDir b ↔ a = b := by
  constructor
  · intro h
    simp only [filesDir, List.cons.injEq, and_true, true_and] at h
    exact pkgName_injective h
  · rintro rfl; rfl

theorem innerFold_dirs (r : RandSource) (i : Nat) (js : List Nat) (s : FS × Nat) :
    ((js.foldl (fileStep r i) s).1).dirs = (s.1).dirs := by
  induction js generalizing s with
  | nil => rfl
  | cons j js ih =>
    rw [List.foldl_cons, ih]
    rfl

theorem innerFold_content_frame (r : RandSource) (i : Nat) (js : List Nat)
    (s : FS × Nat) {p : FsPath} (hp : ∀ j ∈ js, p ≠ payloadPath i j) :
    ((js.foldl (fileStep r i) s).1).content p = (s.1).content p := by
  induction js generalizing s with
  | nil => rfl
  | cons j js ih =>
    rw [List.foldl_cons]
    rw [ih _ (fun j' hj' => hp j' (List.mem_cons_of_mem _ hj'))]
    exact FS.content_writeFile_ne _ _ (hp j (List.mem_cons_self _ _))

theorem innerFold_content_payload (r : RandSource) (i : Nat) (js : List Nat)
    (s : FS × Nat) {j : Nat} (hj : j ∈ js) :
    ∃ k, ((js.foldl (fileStep r i) s).1).content (payloadPath i j)
      = some (.bytes (r.ur k (1024 + r.ri k))) := by
  induction js generalizing s with
  | nil => simp at hj
  | cons j' js ih =>
    rw [List.foldl_cons]
    by_cases hmem : j ∈ js
    · exact ih _ hmem
    · have hj' : j = j' := by
        rcases List.mem_cons.mp hj with h | h
        · exact h
        · exact absurd h hmem
      subst hj'
      refine ⟨s.2, ?_⟩
      rw [innerFold_content_frame r i js _ (fun jj hjj heq => hmem (by
        rw [(payloadPath_inj.mp heq).2]; exact hjj))]
      exact FS.content_writeFile_self _ _ _

/-- The package step never changes the directory set except by adding the
three directories of its `os.makedirs` chain. -/
theorem pkgStep_dirs (r : RandSource) (M : Int) (s : FS × Nat) (i : Nat) (q : FsPath) :
    q ∈ ((pkgStep r M s i).1).dirs
      ↔ q ∈ (s.1).dirs ∨ q = ["pkgs"] ∨ q = pkgDir i ∨ q = filesDir i := by
  show q ∈ (FS.appendToFile _ _ _).dirs ↔ _
  rw [FS.dirs_appendToFile, innerFold_dirs, FS.dirs_writeFile, FS.mem_dirs_mkdirAll,
    pathPrefixes_filesDir]
  simp

theorem pkgStep_content_frame (r : RandSource) (M : Int) (s : FS × Nat) (i : Nat)
    {p : FsPath} (h1 : p ≠ indexPath) (h2 : p ≠ manifestPath i)
    (h3 : ∀ j ∈ pyRange1 M, p ≠ payloadPath i j) :
    ((pkgStep r M s i).1).content p = (s.1).content p := by
  show (FS.appendToFile _ _ _).content p = _
  rw [FS.content_appendToFile_ne _ _ h1, innerFold_content_frame r i _ _ h3,
    FS.content_writeFile_ne _ _ h2, FS.content_mkdirAll]

theorem pkgStep_content_manifest (r : RandSource) (M : Int) (s : FS × Nat) (i : Nat) :
    ((pkgStep r M s i).1).content (manifestPath i)
      = some (.text (manifestText (pkgName i))) := by
  show (FS.appendToFile _ _ _).content _ = _
  rw [FS.content_appendToFile_ne _ _ (indexPath_ne_manifestPath i).symm,
    innerFold_content_frame r i _ _ (fun j _ => manifestPath_ne_payloadPath i i j)]
  exact FS.content_writeFile_self _ _ _

theorem pkgStep_content_payload (r : RandSource) (M : Int) (s : FS × Nat) (i : Nat)
    {j : Nat} (hj : j ∈ pyRange1 M) :
    ∃ k, ((pkgStep r M s i).1).content (payloadPath i j)
      = some (.bytes (r.ur k (1024 + r.ri k))) := by
  obtain ⟨k, hk⟩ := innerFold_content_payload r i (pyRange1 M)
    ((((s.1).mkdirAll (filesDir i)).writeFile (manifestPath i)
      (.text (manifestText (pkgName i)))), s.2) hj
  refine ⟨k, ?_⟩
  show (FS.appendToFile _ _ _).content _ = _
  rw [FS.content_appendToFile_ne _ _ (indexPath_ne_payloadPath i j).symm]
  exact hk

theorem pkgStep_content_index (r : RandSource) (M : Int) (s : FS × Nat) (i : Nat)
    {t : String} (ht : (s.1).content indexPath = some (.text t)) :
    ((pkgStep r M s i).1).content indexPath
      = some (.text (t ++ (pathStr (pkgDir i) ++ "\n"))) := by
  show (FS.appendToFile _ _ _).content _ = _
  rw [FS.content_appendToFile_self]
  congr 2
  unfold FS.textAt
  rw [innerFold_content_frame r i _ _ (fun j _ => indexPath_ne_payloadPath i j),
    FS.content_writeFile_ne _ _ (indexPath_ne_manifestPath i), FS.content_mkdirAll, ht]

/-- One line of the index file per package, in loop order. -/
def indexLines : List Nat → String
  | [] => ""
  | i :: is => (pathStr (pkgDir i) ++ "\n") ++ indexLines is

theorem outerFold_dirs (r : RandSource) (M : Int) (is : List Nat) (s : FS × Nat)
    (q : FsPath) :
    q ∈ ((is.foldl (pkgStep r M) s).1).dirs
      ↔ q ∈ (s.1).dirs ∨ ∃ i ∈ is, q = ["pkgs"] ∨ q = pkgDir i ∨ q = filesDir i := by
  induction is generalizing s with
  | nil => simp
  | cons i is ih =>
    rw [List.foldl_cons, ih]
    rw [pkgStep_dirs]
    constructor
    · rintro ((h | h) | ⟨i', hi', h⟩)
      · exact Or.inl h
      · exact Or.inr ⟨i, List.mem_cons_self _ _, h⟩
      · exact Or.inr ⟨i', List.mem_cons_of_mem _ hi', h⟩
    · rintro (h | ⟨i', hi', h⟩)
      · exact Or.inl (Or.inl h)
      · rcases List.mem_cons.mp hi' with rfl | hmem
        · exact Or.inl (Or.inr h)
        · exact Or.inr ⟨i', hmem, h⟩

theorem outerFold_content_frame (r : RandSource) (M : Int) (is : List Nat)
    (s : FS × Nat) {p : FsPath} (h1 : p ≠ indexPath)
    (h2 : ∀ i ∈ is, p ≠ manifestPath i ∧ ∀ j ∈ pyRange1 M, p ≠ payloadPath i j) :
    ((is.foldl (pkgStep r M) s).1).content p = (s.1).content p := by
  induction is generalizing s with
  | nil => rfl
  | cons i is ih =>
    rw [List.foldl_cons]
    rw [ih _ (fun i' hi' => h2 i' (List.mem_cons_of_mem _ hi'))]
    have hh := h2 i (List.mem_cons_self _ _)
    exact pkgStep_content_frame r M s i h1 hh.1 hh.2

theorem outerFold_content_manifest (r : RandSource) (M : Int) (is : List Nat)
    (s : FS × Nat) {i : Nat} (hi : i ∈ is) :
    ((is.foldl (pkgStep r M) s).1).content (manifestPath i)
      = some (.text (manifestText (pkgName i))) := by
  induction is generalizing s with
  | nil => simp at hi
  | cons i' is ih =>
    rw [List.foldl_cons]
    by_cases hmem : i ∈ is
    · exact ih _ hmem
    · have hii : i = i' := by
        rcases List.mem_cons.mp hi with h | h
        · exact h
        · exact absurd h hmem
      subst hii
      rw [outerFold_content_frame r M is _ (indexPath_ne_manifestPath i).symm
        (fun i'' hi'' => ⟨fun heq => hmem (by rw [manifestPath_inj.mp heq]; exact hi''),
          fun j _ => manifestPath_ne_payloadPath i i'' j⟩)]
      exact pkgStep_content_manifest r M s i

theorem outerFold_content_payload (r : RandSource) (M : Int) (is : List Nat)
    (s : FS × Nat) {i j : Nat} (hi : i ∈ is) (hj : j ∈ pyRange1 M) :
    ∃ k, ((is.foldl (pkgStep r M) s).1).content (payloadPath i j)
      = some (.bytes (r.ur k (1024 + r.ri k))) := by
  induction is generalizing s with
  | nil => simp at hi
  | cons i' is ih =>
    rw [List.foldl_cons]
    by_cases hmem : i ∈ is
    · exact ih _ hmem
    · have hii : i = i' := by
        rcases List.mem_cons.mp hi with h | h
        · exact h
        · exact absurd h hmem
      subst hii
      obtain ⟨k, hk⟩ := pkgStep_content_payload r M s i hj
      refine ⟨k, ?_⟩
      rw [outerFold_content_frame r M is _ (indexPath_ne_payloadPath i j).symm
        (fun i'' hi'' => ⟨fun heq => manifestPath_ne_payloadPath i'' i j heq.symm,
          fun j' _ heq => hmem (by rw [(payloadPath_inj.mp heq).1]; exact hi'')⟩)]
      exact hk

theorem outerFold_content_index (r : RandSource) (M : Int) (is : List Nat)
    (s : FS × Nat) {t : String} (ht : (s.1).content indexPath = some (.text t)) :
    ((is.foldl (pkgStep r M) s).1).content indexPath
      = some (.text (t ++ indexLines is)) := by
  induction is generalizing s t with
  | nil => simpa [indexLines] using ht
  | cons i is ih =>
    rw [List.foldl_cons]
    rw [ih _ (pkgStep_content_index r M s i ht)]
    rw [indexLines, String.append_assoc]

theorem outerFold_index_isSome (r : RandSource) (M : Int) (is : List Nat)
    (s : FS × Nat) (hidx : ((s.1).content indexPath).isSome) :
    (((is.foldl (pkgStep r M) s).1).content indexPath).isSome := by
  induction is generalizing s with
  | nil => exact hidx
  | cons i is ih =>
    rw [List.foldl_cons]
    apply ih
    show ((FS.appendToFile _ _ _).content indexPath).isSome
    rw [FS.content_appendToFile_self]
    rfl

theorem outerFold_content_isSome (r : RandSource) (M : Int) (is : List Nat)
    (s : FS × Nat) (hidx : ((s.1).content indexPath).isSome) (p : FsPath) :
    (((is.foldl (pkgStep r M) s).1).content p).isSome
      ↔ ((s.1).content p).isSome
        ∨ ∃ i ∈ is, p = manifestPath i ∨ ∃ j ∈ pyRange1 M, p = payloadPath i j := by
  by_cases hp1 : p = indexPath
  · subst hp1
    constructor
    · intro _
      exact Or.inl hidx
    · intro _
      exact outerFold_index_isSome r M is s hidx
  · by_cases hp2 : ∃ i ∈ is, p = manifestPath i ∨ ∃ j ∈ pyRange1 M, p = payloadPath i j
    · obtain ⟨i, hi, hcase⟩ := hp2
      rcases hcase with rfl | ⟨j, hj, rfl⟩
      · rw [outerFold_content_manifest r M is s hi]
        simp only [Option.isSome_some, true_iff]
        exact Or.inr ⟨i, hi, Or.inl rfl⟩
      · obtain ⟨k, hk⟩ := outerFold_content_payload r M is s hi hj
        rw [hk]
        simp only [Option.isSome_some, true_iff]
        exact Or.inr ⟨i, hi, Or.inr ⟨j, hj, rfl⟩⟩
    · push_neg at hp2
      rw [outerFold_content_frame r M is s hp1 (fun i hi => ⟨(hp2 i hi).1, (hp2 i hi).2⟩)]
      constructor
      · exact Or.inl
      · rintro (h | ⟨i, hi, hcase⟩)
        · exact h
        · rcases hcase with rfl | ⟨j, hj, rfl⟩
          · exact absurd rfl (hp2 i hi).1
          · exact absurd rfl ((hp2 i hi).2 j hj)

/-- The state right before the package loop: `pkgs` created, index truncated. -/
def setupFS : FS := (FS.empty.mkdirAll ["pkgs"]).writeFile indexPath (.text "")

theorem runFS_eq_fold (N M : Int) (r : RandSource) :
    runFS N M r = ((pyRange1 N).foldl (pkgStep r M) (setupFS, 0)).1 := rfl

theorem setupFS_content_index : setupFS.content indexPath = some (.text "") := rfl

theorem setupFS_content_ne {p : FsPath} (h : p ≠ indexPath) : setupFS.content p = none := by
  simp [setupFS, FS.writeFile, FS.mkdirAll, FS.empty, h]

theorem mem_setupFS_dirs (q : FsPath) : q ∈ setupFS.dirs ↔ q = ["pkgs"] := by
  simp [setupFS, FS.writeFile, FS.mkdirAll, FS.empty, pathPrefixes_root]

theorem pyRange1_length (n : Int) : (pyRange1 n).length = n.toNat := by
  simp [pyRange1]

theorem mem_pyRange1 {n : Int} {i : Nat} : i ∈ pyRange1 n ↔ 1 ≤ i ∧ i ≤ n.toNat := by
  simp only [pyRange1, List.mem_map, List.mem_range]
  constructor
  · rintro ⟨a, ha, rfl⟩
    omega
  · rintro ⟨h1, h2⟩
    exact ⟨i - 1, by omega, by omega⟩

theorem pyRange1_nodup (n : Int) : (pyRange1 n).Nodup :=
  (List.nodup_range _).map (fun a b => by omega)

theorem pyRange1_of_nonpos {n : Int} (h : n ≤ 0) : pyRange1 n = [] := by
  have : n.toNat = 0 := by omega
  simp [pyRange1, this]

theorem pyRange1_getElem? {n : Int} {idx : Nat} (h : idx < n.toNat) :
    (pyRange1 n)[idx]? = some (idx + 1) := by
  simp [pyRange1, List.getElem?_map, List.getElem?_range, h]

theorem runFS_dirs (N M : Int) (r : RandSource) (q : FsPath) :
    q ∈ (runFS N M r).dirs
      ↔ q = ["pkgs"] ∨ ∃ i ∈ pyRange1 N, q = pkgDir i ∨ q = filesDir i := by
  rw [runFS_eq_fold, outerFold_dirs]
  simp only [mem_setupFS_dirs]
  constructor
  · rintro (h | ⟨i, hi, h | h | h⟩)
    · exact Or.inl h
    · exact Or.inl h
    · exact Or.inr ⟨i, hi, Or.inl h⟩
    · exact Or.inr ⟨i, hi, Or.inr h⟩
  · rintro (h | ⟨i, hi, h | h⟩)
    · exact Or.inl h
    · exact Or.inr ⟨i, hi, Or.inr (Or.inl h)⟩
    · exact Or.inr ⟨i, hi, Or.inr (Or.inr h)⟩

theorem runFS_content_manifest (N M : Int) (r : RandSource) {i : Nat}
    (hi : i ∈ pyRange1 N) :
    (runFS N M r).content (manifestPath i) = some (.text (manifestText (pkgName i))) := by
  rw [runFS_eq_fold]
  exact outerFold_content_manifest r M (pyRange1 N) (setupFS, 0) hi

theorem runFS_content_payload (N M : Int) (r : RandSource) {i j : Nat}
    (hi : i ∈ pyRange1 N) (hj : j ∈ pyRange1 M) :
    ∃ k, (runFS N M r).content (payloadPath i j)
      = some (.bytes (r.ur k (1024 + r.ri k))) := by
  rw [runFS_eq_fold]
  exact outerFold_content_payload r M (pyRange1 N) (setupFS, 0) hi hj

theorem runFS_content_index (N M : Int) (r : RandSource) :
    (runFS N M r).content indexPath = some (.text (indexLines (pyRange1 N))) := by
  rw [runFS_eq_fold]
  have h0 : ("" : String) ++ indexLines (pyRange1 N) = indexLines (pyRange1 N) := by
    apply String.ext
    simp
  rw [outerFold_content_index r M (pyRange1 N) (setupFS, 0) setupFS_content_index, h0]

theorem runFS_content_isSome (N M : Int) (r : RandSource) (p : FsPath) :
    ((runFS N M r).content p).isSome
      ↔ p = indexPath
        ∨ ∃ i ∈ pyRange1 N, p = manifestPath i ∨ ∃ j ∈ pyRange1 M, p = payloadPath i j := by
  rw [runFS_eq_fold]
  rw [outerFold_content_isSome r M (pyRange1 N) (setupFS, 0) (by rw [setupFS_content_index]; rfl)]
  constructor
  · rintro (h | h)
    · by_cases hp : p = indexPath
      · exact Or.inl hp
      · rw [setupFS_content_ne hp] at h
        simp at h
    · exact Or.inr h
  · rintro (rfl | h)
    · exact Or.inl (by rw [setupFS_content_index]; rfl)
    · exact Or.inr h

theorem pkgDir_injective : Function.Injective pkgDir := fun _ _ h => pkgDir_inj.mp h

theorem payloadPath_injective (i : Nat) : Function.Injective (payloadPath i) :=
  fun _ _ h => (payloadPath_inj.mp h).2

/-- The package directories present in a state: the directories lying
immediately under the root `pkgs`. -/
def pkgDirsOf (fs : FS) : Finset FsPath :=
  fs.dirs.filter (fun p => p.length = 2 ∧ p.head? = some "pkgs")

theorem pkgDirsOf_runFS (N M : Int) (r : RandSource) :
    pkgDirsOf (runFS N M r) = (pyRange1 N).toFinset.image pkgDir := by
  ext q
  simp only [pkgDirsOf, Finset.mem_filter, Finset.mem_image, List.mem_toFinset]
  rw [runFS_dirs]
  constructor
  · rintro ⟨h | ⟨i, hi, rfl | rfl⟩, hlen, hhd⟩
    · subst h; simp at hlen
    · exact ⟨i, hi, rfl⟩
    · simp [filesDir] at hlen
  · rintro ⟨i, hi, rfl⟩
    exact ⟨Or.inr ⟨i, hi, Or.inl rfl⟩, rfl, rfl⟩

theorem card_pkgDirsOf_runFS (N M : Int) (r : RandSource) :
    (pkgDirsOf (runFS N M r)).card = N.toNat := by
  rw [pkgDirsOf_runFS, Finset.card_image_of_injective _ pkgDir_injective,
    List.toFinset_card_of_nodup (pyRange1_nodup N), pyRange1_length]

/-- The set of file paths package `i` is supposed to hold: its manifest plus
one payload per inner-loop index. -/
def pkgFiles (i : Nat) (M : Int) : Finset FsPath :=
  insert (manifestPath i) ((pyRange1 M).toFinset.image (payloadPath i))

theorem manifestPath_not_mem_payload_image (i : Nat) (M : Int) :
    manifestPath i ∉ (pyRange1 M).toFinset.image (payloadPath i) := by
  simp only [Finset.mem_image, List.mem_toFinset, not_exists]
  rintro j ⟨_, hj⟩
  exact manifestPath_ne_payloadPath i i j hj.symm

theorem card_pkgFiles (i : Nat) (M : Int) : (pkgFiles i M).card = 1 + M.toNat := by
  rw [pkgFiles, Finset.card_insert_of_not_mem (manifestPath_not_mem_payload_image i M),
    Finset.card_image_of_injective _ (payloadPath_injective i),
    List.toFinset_card_of_nodup (pyRange1_nodup M), pyRange1_length]
  omega

theorem manifestPath_take_two (i : Nat) : (manifestPath i).take 2 = pkgDir i := rfl

theorem payloadPath_take_two (i j : Nat) : (payloadPath i j).take 2 = pkgDir i := rfl

/-- The files a run leaves inside package `i`'s directory subtree are exactly
its manifest and its `M` payload files. -/
theorem runFS_files_of_pkg (N M : Int) (r : RandSource) {i : Nat}
    (hi : i ∈ pyRange1 N) (p : FsPath) :
    (((runFS N M r).content p).isSome ∧ p.take 2 = pkgDir i) ↔ p ∈ pkgFiles i M := by
  constructor
  · rintro ⟨hsome, htake⟩
    rcases (runFS_content_isSome N M r p).mp hsome with rfl | ⟨i', hi', rfl | ⟨j, hj, rfl⟩⟩
    · simp [indexPath, pkgDir] at htake
    · rw [manifestPath_take_two] at htake
      rw [pkgDir_inj.mp htake]
      exact Finset.mem_insert_self _ _
    · rw [payloadPath_take_two] at htake
      rw [(pkgDir_inj.mp htake)]
      exact Finset.mem_insert_of_mem (Finset.mem_image_of_mem _ (List.mem_toFinset.mpr hj))
  · intro hp
    rcases Finset.mem_insert.mp hp with rfl | hp
    · refine ⟨?_, manifestPath_take_two i⟩
      rw [runFS_content_manifest N M r hi]
      rfl
    · obtain ⟨j, hj, rfl⟩ := Finset.mem_image.mp hp
      rw [List.mem_toFinset] at hj
      refine ⟨?_, payloadPath_take_two i j⟩
      obtain ⟨k, hk⟩ := runFS_content_payload N M r hi hj
      rw [hk]
      rfl

theorem pathStr_pkgDir (i : Nat) : pathStr (pkgDir i) = "pkgs/" ++ pkgName i := rfl

theorem pathStr_pkgDir_injective :
    Function.Injective (fun i => pathStr (pkgDir i)) := by
  intro a b h
  simp only [pathStr_pkgDir] at h
  have hd : ("pkgs/" ++ pkgName a).data = ("pkgs/" ++ pkgName b).data := congrArg String.data h
  rw [String.data_append, String.data_append] at hd
  exact pkgName_injective (String.ext (List.append_cancel_left hd))

theorem pathStr_pkgDir_no_newline (i : Nat) :
    ∀ c ∈ (pathStr (pkgDir i)).data, c ≠ '\n' := by
  intro c hc
  rw [pathStr_pkgDir, String.data_append] at hc
  rcases List.mem_append.mp hc with hp | hd
  · intro hcn
    rw [hcn] at hp
    simp at hp
  · exact pkgName_no_newline i c hd

/-- A newline-terminated line per list entry, in order. -/
def linesToText : List String → String
  | [] => ""
  | l :: ls => (l ++ "\n") ++ linesToText ls

theorem indexLines_eq_linesToText (is : List Nat) :
    indexLines is = linesToText (is.map (fun i => pathStr (pkgDir i))) := by
  induction is with
  | nil => rfl
  | cons i is ih => rw [List.map_cons, indexLines, linesToText, ih]

/-- Outcome of a run started in a state where `pkgs` already exists. -/
def secondRunFS (N M : Int) (r : RandSource) (fs : FS) : FS :=
  ((pyRange1 N).foldl (pkgStep r M) (fs.writeFile indexPath (.text ""), 0)).1

/-- When `pkgs` already exists, `os.path.exists` guards the strict `makedirs`,
so the run completes without a `FileExistsError`. -/
theorem generate_on_existing (N M : Int) (r : RandSource) (fs : FS)
    (h : ["pkgs"] ∈ fs.dirs) :
    generate_test_data N M r fs = Except.ok (secondRunFS N M r fs) := by
  unfold generate_test_data secondRunFS
  have hex : fs.pathExists ["pkgs"] = true := by
    simp [FS.pathExists, h]
  rw [hex]
  rfl

theorem secondRun_dirs (N M : Int) (r : RandSource) (fs : FS) (q : FsPath) :
    q ∈ (secondRunFS N M r fs).dirs
      ↔ q ∈ fs.dirs ∨ ∃ i ∈ pyRange1 N, q = ["pkgs"] ∨ q = pkgDir i ∨ q = filesDir i := by
  unfold secondRunFS
  rw [outerFold_dirs]
  rfl

theorem secondRun_content_isSome (N M : Int) (r : RandSource) (fs : FS) (p : FsPath) :
    ((secondRunFS N M r fs).content p).isSome
      ↔ p = indexPath ∨ (fs.content p).isSome
        ∨ ∃ i ∈ pyRange1 N, p = manifestPath i ∨ ∃ j ∈ pyRange1 M, p = payloadPath i j := by
  unfold secondRunFS
  rw [outerFold_content_isSome r M (pyRange1 N) _ (by
    show ((fs.writeFile indexPath (.text "")).content indexPath).isSome
    rw [FS.content_writeFile_self]
    rfl)]
  show ((fs.writeFile indexPath (.text "")).content p).isSome ∨ _ ↔ _
  by_cases hp : p = indexPath
  · subst hp
    rw [FS.content_writeFile_self]
    simp
  · rw [FS.content_writeFile_ne _ _ hp]
    constructor
    · rintro (h | h)
      · exact Or.inr (Or.inl h)
      · exact Or.inr (Or.inr h)
    · rintro (h | h | h)
      · exact absurd h hp
      · exact Or.inl h
      · exact Or.inr h

theorem secondRun_content_manifest (N M : Int) (r : RandSource) (fs : FS) {i : Nat}
    (hi : i ∈ pyRange1 N) :
    (secondRunFS N M r fs).content (manifestPath i)
      = some (.text (manifestText (pkgName i))) := by
  unfold secondRunFS
  exact outerFold_content_manifest r M (pyRange1 N) _ hi

theorem secondRun_content_index (N M : Int) (r : RandSource) (fs : FS) :
    (secondRunFS N M r fs).content indexPath = some (.text (indexLines (pyRange1 N))) := by
  unfold secondRunFS
  have h0 : ("" : String) ++ indexLines (pyRange1 N) = indexLines (pyRange1 N) := by
    apply String.ext
    simp
  rw [outerFold_content_index r M (pyRange1 N) _ (FS.content_writeFile_self fs indexPath _), h0]

/-- The `__main__` guard, lines 27-28 of the source: invoking the script as
the entry point runs the generator with 100 packages of 20 files each. -/
def mainRun (r : RandSource) : Except String FS := generate_test_data 100 20 r FS.empty

/-- A degenerate randomness source used to instantiate theorems: every
`randint` draw is 0 and every `urandom` call returns zero bytes of the
requested size. -/
def constSrc : RandSource := ⟨fun _ => 0, fun _ s => List.replicate s 0⟩

theorem constSrc_intBounded : constSrc.IntBounded := by
  intro k
  simp [constSrc, RandSource.IntBounded]

theorem constSrc_bytesSized : constSrc.BytesSized := by
  intro k s
  simp [constSrc]

/-- A second degenerate randomness source, maximally different from
`constSrc`: draws are maximal and bytes are 255. -/
def altSrc : RandSource := ⟨fun _ => 4096, fun _ s => List.replicate s 255⟩

theorem altSrc_intBounded : altSrc.IntBounded := by
  intro k
  simp [altSrc, RandSource.IntBounded]

theorem altSrc_bytesSized : altSrc.BytesSized := by
  intro k s
  simp [altSrc]

theorem ok_inj {α β : Type} {a b : α} (h : (Except.ok a : Except β α) = Except.ok b) :
    a = b := by
  cases h
  rfl

/-- C1: for every `packageCount = N ≥ 1` and `filesPerPackage = M ≥ 0`, after
a successful run started in an empty working directory exactly `N` package
directories exist under the root, and each package directory holds exactly
one manifest file and exactly `M` payload files (so `1 + M` files in all). -/
theorem claim_C1 (N M : Int) (r : RandSource) (fs : FS)
    (hN : 1 ≤ N) (hM : 0 ≤ M)
    (hrun : generate_test_data N M r FS.empty = Except.ok fs) :
    (pkgDirsOf fs).card = N.toNat
    ∧ ∀ d ∈ pkgDirsOf fs, ∃ i ∈ pyRange1 N, d = pkgDir i
        ∧ (∀ p : FsPath, ((fs.content p).isSome ∧ p.take 2 = d) ↔ p ∈ pkgFiles i M)
        ∧ (pkgFiles i M).card = 1 + M.toNat := by
  rw [generate_empty_eq] at hrun
  obtain rfl : runFS N M r = fs := ok_inj hrun
  refine ⟨card_pkgDirsOf_runFS N M r, ?_⟩
  intro d hd
  rw [pkgDirsOf_runFS] at hd
  obtain ⟨i, hi, rfl⟩ := Finset.mem_image.mp hd
  rw [List.mem_toFinset] at hi
  exact ⟨i, hi, rfl, fun p => runFS_files_of_pkg N M r hi p, card_pkgFiles i M⟩

theorem claim_C1_witness :
    (pkgDirsOf (runFS 2 1 constSrc)).card = (2:Int).toNat
    ∧ ∀ d ∈ pkgDirsOf (runFS 2 1 constSrc), ∃ i ∈ pyRange1 2, d = pkgDir i
        ∧ (∀ p : FsPath, (((runFS 2 1 constSrc).content p).isSome ∧ p.take 2 = d)
            ↔ p ∈ pkgFiles i 1)
        ∧ (pkgFiles i 1).card = 1 + (1:Int).toNat :=
  claim_C1 2 1 constSrc (runFS 2 1 constSrc) (by norm_num) (by norm_num)
    (generate_empty_eq 2 1 constSrc)

/-- C2: after a successful run the index file `packages.txt` holds exactly
`N` newline-terminated, newline-free lines; the line at position `idx` is the
rendered path of package `idx + 1`, so the listing is in ascending creation
order with no duplicates and no omissions, and every listed path is the path
of a created package directory. -/
theorem claim_C2 (N M : Int) (r : RandSource) (fs : FS) (hN : 1 ≤ N)
    (hrun : generate_test_data N M r FS.empty = Except.ok fs) :
    fs.content indexPath
        = some (.text (linesToText ((pyRange1 N).map (fun i => pathStr (pkgDir i)))))
    ∧ ((pyRange1 N).map (fun i => pathStr (pkgDir i))).length = N.toNat
    ∧ ((pyRange1 N).map (fun i => pathStr (pkgDir i))).Nodup
    ∧ (∀ idx, idx < N.toNat →
        ((pyRange1 N).map (fun i => pathStr (pkgDir i)))[idx]?
          = some (pathStr (pkgDir (idx + 1))))
    ∧ (∀ i ∈ pyRange1 N, pkgDir i ∈ fs.dirs)
    ∧ (∀ l ∈ (pyRange1 N).map (fun i => pathStr (pkgDir i)), ∀ c ∈ l.data, c ≠ '\n') := by
  rw [generate_empty_eq] at hrun
  obtain rfl : runFS N M r = fs := ok_inj hrun
  refine ⟨?_, ?_, ?_, ?_, ?_, ?_⟩
  · rw [runFS_content_index, indexLines_eq_linesToText]
  · rw [List.length_map, pyRange1_length]
  · exact (pyRange1_nodup N).map pathStr_pkgDir_injective
  · intro idx hidx
    rw [List.getElem?_map, pyRange1_getElem? hidx]
    rfl
  · intro i hi
    exact (runFS_dirs N M r (pkgDir i)).mpr (Or.inr ⟨i, hi, Or.inl rfl⟩)
  · intro l hl c hc
    obtain ⟨i, _, rfl⟩ := List.mem_map.mp hl
    exact pathStr_pkgDir_no_newline i c hc

theorem claim_C2_witness :
    (runFS 2 0 constSrc).content indexPath
        = some (.text (linesToText ((pyRange1 2).map (fun i => pathStr (pkgDir i)))))
    ∧ ((pyRange1 2).map (fun i => pathStr (pkgDir i))).length = (2:Int).toNat
    ∧ ((pyRange1 2).map (fun i => pathStr (pkgDir i))).Nodup
    ∧ (∀ idx, idx < (2:Int).toNat →
        ((pyRange1 2).map (fun i => pathStr (pkgDir i)))[idx]?
          = some (pathStr (pkgDir (idx + 1))))
    ∧ (∀ i ∈ pyRange1 2, pkgDir i ∈ (runFS 2 0 constSrc).dirs)
    ∧ (∀ l ∈ (pyRange1 2).map (fun i => pathStr (pkgDir i)), ∀ c ∈ l.data, c ≠ '\n') :=
  claim_C2 2 0 constSrc (runFS 2 0 constSrc) (by norm_num)
    (generate_empty_eq 2 0 constSrc)

/-- C3: after a successful run, the manifest of every created package `i`
holds exactly the text `{"name":"<pkg_name>","version":"1.0.0"}` followed by
a newline, where `<pkg_name>` is the zero-padded (minimum width 3) name. -/
theorem claim_C3 (N M : Int) (r : RandSource) (fs : FS)
    (hrun : generate_test_data N M r FS.empty = Except.ok fs) :
    ∀ i ∈ pyRange1 N,
      fs.content (manifestPath i)
        = some (.text ("\x7b\"name\":\"" ++ pkgName i ++ "\",\"version\":\"1.0.0\"\x7d\n")) := by
  rw [generate_empty_eq] at hrun
  obtain rfl : runFS N M r = fs := ok_inj hrun
  intro i hi
  rw [runFS_content_manifest N M r hi]
  rfl

theorem claim_C3_witness :
    (runFS 1 0 constSrc).content (manifestPath 1)
        = some (.text ("\x7b\"name\":\"" ++ pkgName 1 ++ "\",\"version\":\"1.0.0\"\x7d\n")) :=
  claim_C3 1 0 constSrc (runFS 1 0 constSrc) (generate_empty_eq 1 0 constSrc) 1 (by decide)

/-- A randomness source whose every size draw yields exactly the target
payload length `s` (assuming `1024 ≤ s ≤ 5120`). -/
def sizedSrc (s : Nat) : RandSource := ⟨fun _ => s - 1024, fun _ sz => List.replicate sz 0⟩

/-- C4: the byte length of every payload file is `1024 + randint(0, 4096)`,
hence lies in the inclusive range `[1024, 5120]` whenever the integer draw is
within its own range; and every length in that range is attainable by some
admissible randomness source. -/
theorem claim_C4 (N M : Int) (r : RandSource) (fs : FS)
    (hri : r.IntBounded) (hur : r.BytesSized)
    (hrun : generate_test_data N M r FS.empty = Except.ok fs) :
    (∀ i ∈ pyRange1 N, ∀ j ∈ pyRange1 M,
       ∃ b, fs.content (payloadPath i j) = some (.bytes b)
         ∧ 1024 ≤ b.length ∧ b.length ≤ 5120)
    ∧ ∀ s : Nat, 1024 ≤ s → s ≤ 5120 →
        ∃ r' : RandSource, r'.IntBounded ∧ r'.BytesSized
          ∧ ∃ b, (runFS 1 1 r').content (payloadPath 1 1) = some (.bytes b)
              ∧ b.length = s := by
  rw [generate_empty_eq] at hrun
  obtain rfl : runFS N M r = fs := ok_inj hrun
  constructor
  · intro i hi j hj
    obtain ⟨k, hk⟩ := runFS_content_payload N M r hi hj
    refine ⟨r.ur k (1024 + r.ri k), hk, ?_, ?_⟩
    · rw [hur k]
      omega
    · rw [hur k]
      have := hri k
      omega
  · intro s hs1 hs2
    refine ⟨sizedSrc s, ?_, ?_, ?_⟩
    · intro k
      show s - 1024 ≤ 4096
      omega
    · intro k sz
      simp [sizedSrc]
    · have h1 : (1 : Nat) ∈ pyRange1 1 := by decide
      obtain ⟨k, hk⟩ := runFS_content_payload 1 1 (sizedSrc s) h1 h1
      refine ⟨_, hk, ?_⟩
      simp only [sizedSrc, List.length_replicate]
      omega

theorem claim_C4_witness :
    (∀ i ∈ pyRange1 1, ∀ j ∈ pyRange1 1,
       ∃ b, (runFS 1 1 constSrc).content (payloadPath i j) = some (.bytes b)
         ∧ 1024 ≤ b.length ∧ b.length ≤ 5120)
    ∧ ∀ s : Nat, 1024 ≤ s → s ≤ 5120 →
        ∃ r' : RandSource, r'.IntBounded ∧ r'.BytesSized
          ∧ ∃ b, (runFS 1 1 r').content (payloadPath 1 1) = some (.bytes b)
              ∧ b.length = s :=
  claim_C4 1 1 constSrc (runFS 1 1 constSrc) constSrc_intBounded constSrc_bytesSized
    (generate_empty_eq 1 1 constSrc)

/-- C5: a second run with the same parameters against the tree left by a
first run raises no error from pre-existing directories, and leaves the same
directory set and the same set of file paths: contents are overwritten, not
duplicated; the deterministic text files come back identical. -/
theorem claim_C5 (N M : Int) (r1 r2 : RandSource) (fs1 : FS)
    (h1 : generate_test_data N M r1 FS.empty = Except.ok fs1) :
    ∃ fs2, generate_test_data N M r2 fs1 = Except.ok fs2
      ∧ (∀ q, q ∈ fs2.dirs ↔ q ∈ fs1.dirs)
      ∧ (∀ p, (fs2.content p).isSome ↔ (fs1.content p).isSome)
      ∧ (∀ i ∈ pyRange1 N, fs2.content (manifestPath i) = fs1.content (manifestPath i))
      ∧ fs2.content indexPath = fs1.content indexPath := by
  rw [generate_empty_eq] at h1
  obtain rfl : runFS N M r1 = fs1 := ok_inj h1
  have hroot : ["pkgs"] ∈ (runFS N M r1).dirs :=
    (runFS_dirs N M r1 _).mpr (Or.inl rfl)
  refine ⟨secondRunFS N M r2 (runFS N M r1),
    generate_on_existing N M r2 _ hroot, ?_, ?_, ?_, ?_⟩
  · intro q
    rw [secondRun_dirs]
    constructor
    · rintro (h | ⟨i, hi, h | h | h⟩)
      · exact h
      · exact (runFS_dirs N M r1 q).mpr (Or.inl h)
      · exact (runFS_dirs N M r1 q).mpr (Or.inr ⟨i, hi, Or.inl h⟩)
      · exact (runFS_dirs N M r1 q).mpr (Or.inr ⟨i, hi, Or.inr h⟩)
    · exact Or.inl
  · intro p
    rw [secondRun_content_isSome, runFS_content_isSome]
    constructor
    · rintro (h | h | h)
      · exact Or.inl h
      · exact h
      · exact Or.inr h
    · intro h
      exact Or.inr (Or.inl h)
  · intro i hi
    rw [secondRun_content_manifest N M r2 _ hi, runFS_content_manifest N M r1 hi]
  · rw [secondRun_content_index, runFS_content_index]

theorem claim_C5_witness :
    ∃ fs2, generate_test_data 1 0 altSrc (runFS 1 0 constSrc) = Except.ok fs2
      ∧ (∀ q, q ∈ fs2.dirs ↔ q ∈ (runFS 1 0 constSrc).dirs)
      ∧ (∀ p, (fs2.content p).isSome ↔ ((runFS 1 0 constSrc).content p).isSome)
      ∧ (∀ i ∈ pyRange1 1,
          fs2.content (manifestPath i) = (runFS 1 0 constSrc).content (manifestPath i))
      ∧ fs2.content indexPath = (runFS 1 0 constSrc).content indexPath :=
  claim_C5 1 0 constSrc altSrc (runFS 1 0 constSrc) (generate_empty_eq 1 0 constSrc)

/-- C6: the package name is the literal `pkg` followed by the index
zero-padded to width 3; the digits decode back to the index (no truncation),
names of indices up to 999 have length exactly 6, indices from 1000 on render
with their full (4 or more) digits, and the concrete examples `pkg001`,
`pkg100`, `pkg1000` come out as stated. -/
theorem claim_C6 (i : Nat) (hi : 1 ≤ i) :
    pkgName i = "pkg" ++ pad3 i
    ∧ strVal (pad3 i) = i
    ∧ (i ≤ 999 → (pkgName i).length = 6)
    ∧ (1000 ≤ i → pkgName i = "pkg" ++ natStr i ∧ 4 ≤ (natStr i).length)
    ∧ pkgName 1 = "pkg001" ∧ pkgName 100 = "pkg100" ∧ pkgName 1000 = "pkg1000" := by
  refine ⟨rfl, strVal_pad3 i, ?_, ?_, by decide, by decide, by decide⟩
  · intro h
    rw [pkgName, String.length_append, pad3_length_of_le h]
    decide
  · intro h
    exact ⟨by rw [pkgName, pad3_of_ge h], natStr_length_ge_four h⟩

theorem claim_C6_witness :
    pkgName 1000 = "pkg" ++ pad3 1000
    ∧ strVal (pad3 1000) = 1000
    ∧ (1000 ≤ 999 → (pkgName 1000).length = 6)
    ∧ (1000 ≤ 1000 → pkgName 1000 = "pkg" ++ natStr 1000 ∧ 4 ≤ (natStr 1000).length)
    ∧ pkgName 1 = "pkg001" ∧ pkgName 100 = "pkg100" ∧ pkgName 1000 = "pkg1000" :=
  claim_C6 1000 (by norm_num)

/-- C7: the concrete call `generate(2, 1)` produces `pkgs/pkg001/manifest.json`
with exactly the expected JSON line, `pkgs/pkg001/files/f1.bin` of between
1024 and 5120 bytes, the analogous structure for `pkg002`, and `packages.txt`
holding exactly the two lines `pkgs/pkg001` then `pkgs/pkg002`. -/
theorem claim_C7 (r : RandSource) (fs : FS) (hri : r.IntBounded) (hur : r.BytesSized)
    (hrun : generate_test_data 2 1 r FS.empty = Except.ok fs) :
    fs.content ["pkgs", "pkg001", "manifest.json"]
        = some (.text "\x7b\"name\":\"pkg001\",\"version\":\"1.0.0\"\x7d\n")
    ∧ (∃ b, fs.content ["pkgs", "pkg001", "files", "f1.bin"] = some (.bytes b)
        ∧ 1024 ≤ b.length ∧ b.length ≤ 5120)
    ∧ fs.content ["pkgs", "pkg002", "manifest.json"]
        = some (.text "\x7b\"name\":\"pkg002\",\"version\":\"1.0.0\"\x7d\n")
    ∧ (∃ b, fs.content ["pkgs", "pkg002", "files", "f1.bin"] = some (.bytes b)
        ∧ 1024 ≤ b.length ∧ b.length ≤ 5120)
    ∧ fs.content ["packages.txt"] = some (.text "pkgs/pkg001\npkgs/pkg002\n") := by
  rw [generate_empty_eq] at hrun
  obtain rfl : runFS 2 1 r = fs := ok_inj hrun
  have h1 : (1 : Nat) ∈ pyRange1 2 := by decide
  have h2 : (2 : Nat) ∈ pyRange1 2 := by decide
  have hj : (1 : Nat) ∈ pyRange1 1 := by decide
  have hm1 : manifestPath 1 = ["pkgs", "pkg001", "manifest.json"] := by decide
  have hm2 : manifestPath 2 = ["pkgs", "pkg002", "manifest.json"] := by decide
  have hp1 : payloadPath 1 1 = ["pkgs", "pkg001", "files", "f1.bin"] := by decide
  have hp2 : payloadPath 2 1 = ["pkgs", "pkg002", "files", "f1.bin"] := by decide
  refine ⟨?_, ?_, ?_, ?_, ?_⟩
  · rw [← hm1, runFS_content_manifest 2 1 r h1]
    congr 1
  · obtain ⟨k, hk⟩ := runFS_content_payload 2 1 r h1 hj
    rw [← hp1]
    refine ⟨_, hk, ?_, ?_⟩
    · rw [hur k]; omega
    · rw [hur k]; have := hri k; omega
  · rw [← hm2, runFS_content_manifest 2 1 r h2]
    congr 1
  · obtain ⟨k, hk⟩ := runFS_content_payload 2 1 r h2 hj
    rw [← hp2]
    refine ⟨_, hk, ?_, ?_⟩
    · rw [hur k]; omega
    · rw [hur k]; have := hri k; omega
  · show (runFS 2 1 r).content indexPath = _
    rw [runFS_content_index]
    congr 2

theorem claim_C7_witness :
    (runFS 2 1 constSrc).content ["pkgs", "pkg001", "manifest.json"]
        = some (.text "\x7b\"name\":\"pkg001\",\"version\":\"1.0.0\"\x7d\n")
    ∧ (∃ b, (runFS 2 1 constSrc).content ["pkgs", "pkg001", "files", "f1.bin"]
          = some (.bytes b) ∧ 1024 ≤ b.length ∧ b.length ≤ 5120)
    ∧ (runFS 2 1 constSrc).content ["pkgs", "pkg002", "manifest.json"]
        = some (.text "\x7b\"name\":\"pkg002\",\"version\":\"1.0.0\"\x7d\n")
    ∧ (∃ b, (runFS 2 1 constSrc).content ["pkgs", "pkg002", "files", "f1.bin"]
          = some (.bytes b) ∧ 1024 ≤ b.length ∧ b.length ≤ 5120)
    ∧ (runFS 2 1 constSrc).content ["packages.txt"]
        = some (.text "pkgs/pkg001\npkgs/pkg002\n") :=
  claim_C7 constSrc (runFS 2 1 constSrc) constSrc_intBounded constSrc_bytesSized
    (generate_empty_eq 2 1 constSrc)

/-- C8: invoked as the entry point without explicit arguments, the script runs
the generator with `packageCount = 100` and `filesPerPackage = 20`: the run
succeeds from an empty working directory and yields 100 package directories
of 21 files (one manifest plus 20 payloads) each. -/
theorem claim_C8 (r : RandSource) :
    mainRun r = generate_test_data 100 20 r FS.empty
    ∧ mainRun r = Except.ok (runFS 100 20 r)
    ∧ (pkgDirsOf (runFS 100 20 r)).card = 100
    ∧ ∀ i ∈ pyRange1 100, (pkgFiles i 20).card = 21 := by
  refine ⟨rfl, generate_empty_eq 100 20 r, ?_, ?_⟩
  · rw [card_pkgDirsOf_runFS]
    decide
  · intro i _
    rw [card_pkgFiles]
    decide

/-- C9: no validation of the two inputs happens.  With `packageCount ≤ 0` the
run still succeeds, creating only the root `pkgs` directory and an empty
(truncated) `packages.txt`; with `packageCount ≥ 1` and
`filesPerPackage ≤ 0` every package gets its directories and manifest but no
payload file at all, the non-positive count acting as zero. -/
theorem claim_C9 (N M : Int) (r : RandSource) :
    (∃ fs, generate_test_data N M r FS.empty = Except.ok fs)
    ∧ (∀ fs, N ≤ 0 → generate_test_data N M r FS.empty = Except.ok fs →
        (∀ q, q ∈ fs.dirs ↔ q = ["pkgs"])
        ∧ fs.content indexPath = some (.text "")
        ∧ ∀ p, p ≠ indexPath → fs.content p = none)
    ∧ (∀ fs, 1 ≤ N → M ≤ 0 → generate_test_data N M r FS.empty = Except.ok fs →
        ∀ i ∈ pyRange1 N,
          pkgDir i ∈ fs.dirs ∧ filesDir i ∈ fs.dirs
          ∧ fs.content (manifestPath i) = some (.text (manifestText (pkgName i)))
          ∧ ∀ j : Nat, fs.content (payloadPath i j) = none) := by
  refine ⟨⟨runFS N M r, generate_empty_eq N M r⟩, ?_, ?_⟩
  · intro fs hN hrun
    rw [generate_empty_eq] at hrun
    obtain rfl : runFS N M r = fs := ok_inj hrun
    have hsetup : runFS N M r = setupFS := by
      rw [runFS_eq_fold, pyRange1_of_nonpos hN]
      rfl
    rw [hsetup]
    exact ⟨mem_setupFS_dirs, setupFS_content_index, fun p hp => setupFS_content_ne hp⟩
  · intro fs _ hM hrun
    rw [generate_empty_eq] at hrun
    obtain rfl : runFS N M r = fs := ok_inj hrun
    intro i hi
    refine ⟨(runFS_dirs N M r _).mpr (Or.inr ⟨i, hi, Or.inl rfl⟩),
      (runFS_dirs N M r _).mpr (Or.inr ⟨i, hi, Or.inr rfl⟩),
      runFS_content_manifest N M r hi, ?_⟩
    intro j
    apply Option.not_isSome_iff_eq_none.mp
    intro hsome
    rcases (runFS_content_isSome N M r _).mp hsome with h | ⟨i', _, h | ⟨j', hj', h⟩⟩
    · exact indexPath_ne_payloadPath i j h.symm
    · exact manifestPath_ne_payloadPath i' i j h.symm
    · rw [pyRange1_of_nonpos hM] at hj'
      simp at hj'

theorem claim_C9_witness :
    ((∀ q, q ∈ (runFS 0 5 constSrc).dirs ↔ q = ["pkgs"])
      ∧ (runFS 0 5 constSrc).content indexPath = some (.text "")
      ∧ ∀ p, p ≠ indexPath → (runFS 0 5 constSrc).content p = none)
    ∧ (∀ i ∈ pyRange1 1,
        pkgDir i ∈ (runFS 1 (-3) constSrc).dirs
        ∧ filesDir i ∈ (runFS 1 (-3) constSrc).dirs
        ∧ (runFS 1 (-3) constSrc).content (manifestPath i)
            = some (.text (manifestText (pkgName i)))
        ∧ ∀ j : Nat, (runFS 1 (-3) constSrc).content (payloadPath i j) = none) :=
  ⟨(claim_C9 0 5 constSrc).2.1 (runFS 0 5 constSrc) (by norm_num)
      (generate_empty_eq 0 5 constSrc),
    (claim_C9 1 (-3) constSrc).2.2 (runFS 1 (-3) constSrc) (by norm_num) (by norm_num)
      (generate_empty_eq 1 (-3) constSrc)⟩

/-- C10: two successful runs with the same parameters but arbitrary
randomness outcomes create the same directories and the same set of file
paths, with identical manifest contents and identical index content: the
randomness source only influences the payload files' lengths and bytes. -/
theorem claim_C10 (N M : Int) (r1 r2 : RandSource) (fs1 fs2 : FS)
    (h1 : generate_test_data N M r1 FS.empty = Except.ok fs1)
    (h2 : generate_test_data N M r2 FS.empty = Except.ok fs2) :
    (∀ q, q ∈ fs1.dirs ↔ q ∈ fs2.dirs)
    ∧ (∀ p, (fs1.content p).isSome ↔ (fs2.content p).isSome)
    ∧ (∀ i ∈ pyRange1 N, fs1.content (manifestPath i) = fs2.content (manifestPath i))
    ∧ fs1.content indexPath = fs2.content indexPath := by
  rw [generate_empty_eq] at h1 h2
  obtain rfl : runFS N M r1 = fs1 := ok_inj h1
  obtain rfl : runFS N M r2 = fs2 := ok_inj h2
  refine ⟨?_, ?_, ?_, ?_⟩
  · intro q
    rw [runFS_dirs, runFS_dirs]
  · intro p
    rw [runFS_content_isSome, runFS_content_isSome]
  · intro i hi
    rw [runFS_content_manifest N M r1 hi, runFS_content_manifest N M r2 hi]
  · rw [runFS_content_index, runFS_content_index]

theorem claim_C10_witness :
    (∀ q, q ∈ (runFS 1 1 constSrc).dirs ↔ q ∈ (runFS 1 1 altSrc).dirs)
    ∧ (∀ p, ((runFS 1 1 constSrc).content p).isSome
        ↔ ((runFS 1 1 altSrc).content p).isSome)
    ∧ (∀ i ∈ pyRange1 1,
        (runFS 1 1 constSrc).content (manifestPath i)
          = (runFS 1 1 altSrc).content (manifestPath i))
    ∧ (runFS 1 1 constSrc).content indexPath = (runFS 1 1 altSrc).content indexPath :=
  claim_C10 1 1 constSrc altSrc (runFS 1 1 constSrc) (runFS 1 1 altSrc)
    (generate_empty_eq 1 1 constSrc) (generate_empty_eq 1 1 altSrc)
